import Mathlib

/-!
Verification of the mrpack-updater Pack Resolution & Rebuild Engine.

This file gives a shallow embedding, in Lean, of the resolution and rebuild
logic of `script.js` (and its earlier copy in `src/unnamed/part_000`):

* the version-selection policy `getBestTargetVersion` (tier-then-date sort of
  the fetched candidate list, JS `Array.prototype.sort` being stable per
  ES2019, modelled by the stable `List.mergeSort`);
* `pickPrimaryFile`;
* the GitHub fallback `fetchCarpetGitHubRelease`, including the word-boundary
  regular-expression match it applies to asset names;
* the per-project resolution task body of `Modpack.analyze` (producing one
  result row), with network responses supplied as explicit inputs;
* the `.mrpack` rebuild of `Modpack.build` (inclusion filter, output file
  records, skipped-row report, dependency pins, loader-version note);
* the bounded-concurrency scheduler `mapLimitProgress`, embedded as a
  small-step state machine that follows the JS control flow (the positions of
  the `await`s) and lets an adversarial schedule decide which in-flight task
  settles at each suspension point.

JS conventions used throughout the embedding: absent / `null` / `undefined`
values are `Option.none`; JS truthiness of a string is "non-empty", of a
number is "non-zero"; publish timestamps are modelled as parsed epoch
integers (`Int`), file sizes as the naturals the registry serves.
-/

/-- JS `s || null` for an optional string: an empty string is falsy. -/
def jsStrOpt : Option String → Option String
  | none => none
  | some s => if s.isEmpty then none else some s

/-- JS `s || d` for an optional string with a (non-null) default. -/
def jsStrOr (o : Option String) (d : String) : String :=
  match jsStrOpt o with
  | some s => s
  | none => d

/-- JS `n || null` for an optional number: `0` is falsy. -/
def jsIntOpt : Option Int → Option Int
  | none => none
  | some n => if n = 0 then none else some n

/-- JS `a || b || null` for two optional numbers. -/
def jsIntOr (a b : Option Int) : Option Int :=
  match jsIntOpt a with
  | some v => some v
  | none => jsIntOpt b

/-- Truthiness test used by the builder on cached string metadata. -/
def truthyStr : Option String → Bool
  | none => false
  | some s => !s.isEmpty

/-- Truthiness test used by the builder on the cached file size. -/
def truthyNat : Option Nat → Bool
  | none => false
  | some n => n != 0

/-- One entry of a Modrinth version's `files` array (the fields the code
reads: `primary`, `hashes.sha1`, `hashes.sha512`, `size`, `url`,
`filename`). -/
structure VFile where
  primary : Bool
  sha1 : Option String
  sha512 : Option String
  size : Option Nat
  url : Option String
  filename : Option String
  deriving Repr, DecidableEq

/-- A Modrinth version candidate, as consumed by `getBestTargetVersion` and
the row builder: `version_type`, `date_published` (parsed timestamp),
`version_number`, `files`. -/
structure Version where
  version_type : String
  date_published : Int
  version_number : String
  files : List VFile
  deriving Repr, DecidableEq

/-- `const tier = v => v.version_type === "release" ? 3 : v.version_type === "beta" ? 2 : 1`. -/
def tierOf (v : Version) : Int :=
  if v.version_type = "release" then 3 else if v.version_type = "beta" then 2 else 1

/-- The comparator passed to `versions.sort`: `tier(b) - tier(a)` if non-zero,
otherwise `date(b) - date(a)`. -/
def cmpVersions (a b : Version) : Int :=
  if tierOf b - tierOf a ≠ 0 then tierOf b - tierOf a
  else b.date_published - a.date_published

/-- The "sorts not after" relation induced by the JS comparator: `a` may stay
before `b` exactly when the comparator is non-positive. -/
def jsLe (a b : Version) : Bool :=
  cmpVersions a b ≤ 0

/-- `getBestTargetVersion`: given the fetched candidate list (`none` when the
fetch failed), return `null` on a missing/empty list, otherwise sort by the
tier/date comparator (stable, per ES2019) and take the first element. -/
def getBestTargetVersion (fetched : Option (List Version)) : Option Version :=
  match fetched with
  | none => none
  | some vs => if vs.isEmpty then none else (vs.mergeSort jsLe).head?

/-- `pickPrimaryFile`: `null` for a missing version or an empty `files` list,
otherwise the first file flagged `primary`, falling back to `files[0]`. -/
def pickPrimaryFile (version : Option Version) : Option VFile :=
  match version with
  | none => none
  | some v =>
    if v.files.isEmpty then none
    else
      match v.files.find? (·.primary) with
      | some f => some f
      | none => v.files.head?

/-- JS `\w`: ASCII letters, digits, underscore. -/
def isWordChar (c : Char) : Bool :=
  c.isAlpha || c.isDigit || c = '_'

/-- Does the literal `t` occur in `s` starting at position `i`? -/
def litFrom (s t : List Char) (i : Nat) : Bool :=
  (s.drop i).take t.length == t

/-- Is the character at position `i` (if any) a word character? -/
def wordAt (s : List Char) (i : Nat) : Bool :=
  match s[i]? with
  | some c => isWordChar c
  | none => false

/-- JS `\b` at position `i` of `s`: exactly one of the neighbouring positions
holds a word character (out-of-range counts as non-word). -/
def wordBoundaryAt (s : List Char) (i : Nat) : Bool :=
  (if i = 0 then false else wordAt s (i - 1)) != wordAt s i

/-- The trailing `(\b|-)` of the Carpet asset regex, tested at position `j`:
either a word boundary, or a literal `-` to consume. -/
def mcAfter (s : List Char) (j : Nat) : Bool :=
  wordBoundaryAt s j ||
    (match s[j]? with
     | some c => c == '-'
     | none => false)

/-- `new RegExp((^|\b|-) ++ escReg(targetMc) ++ (\b|-)).test(name)`: the
escaped target token occurs as a literal, preceded by start-of-string, a word
boundary, or a consumed `-`, and followed by a word boundary or a `-`. -/
def mcTokenTest (t s : List Char) : Bool :=
  (List.range (s.length + 1)).any fun i =>
    (litFrom s t i &&
      (decide (i = 0) || wordBoundaryAt s i ||
        (match (if i = 0 then none else s[i-1]?) with
         | some c => c == '-'
         | none => false)) &&
      mcAfter s (i + t.length))

/-- Containment of a literal `t` in `s` (used for `/fabric-?carpet/`). -/
def containsLit (t : List Char) : List Char → Bool
  | [] => t.isEmpty
  | c :: s => litFrom (c :: s) t 0 || containsLit t s

/-- Suffix test for a literal (used for `/\.jar$/`). -/
def endsWithLit (s t : List Char) : Bool :=
  decide (t.length ≤ s.length) && (s.drop (s.length - t.length) == t)

/-- Lower-cased character list of a string, for the `/i` regex flag. -/
def lowerChars (s : String) : List Char :=
  s.toList.map Char.toLower

/-- `/\.jar$/i.test(name)`. -/
def jarNameTest (name : String) : Bool :=
  endsWithLit (lowerChars name) ".jar".toList

/-- `/fabric-?carpet/i.test(name)`. -/
def carpetNameTest (name : String) : Bool :=
  containsLit "fabric-carpet".toList (lowerChars name) ||
    containsLit "fabriccarpet".toList (lowerChars name)

/-- One downloadable asset of a GitHub release. -/
structure GHAsset where
  name : String
  browser_download_url : String
  deriving Repr, DecidableEq

/-- A GitHub release as the fallback reads it (`assets || []` is modelled by
an always-present list). -/
structure GHRelease where
  draft : Bool
  prerelease : Bool
  tag_name : Option String
  published_at : Option Int
  created_at : Option Int
  assets : List GHAsset
  deriving Repr, DecidableEq

/-- The object `fetchCarpetGitHubRelease` returns for a matching asset. -/
structure GHResult where
  version_number : String
  date_published : Option Int
  download_url : String
  source : String
  deriving Repr, DecidableEq

/-- The asset predicate of the Carpet fallback: a `.jar`, named like Fabric
Carpet, containing the boundary-delimited target-version token. -/
def assetMatches (targetMc : String) (a : GHAsset) : Bool :=
  jarNameTest a.name && carpetNameTest a.name && mcTokenTest targetMc.toList a.name.toList

/-- `{ version_number: r.tag_name || asset.name, date_published: r.published_at
|| r.created_at || null, download_url: asset.browser_download_url, source:
"github-fallback" }`. -/
def mkGHResult (r : GHRelease) (a : GHAsset) : GHResult :=
  { version_number := jsStrOr r.tag_name a.name
    date_published := jsIntOr r.published_at r.created_at
    download_url := a.browser_download_url
    source := "github-fallback" }

/-- `fetchCarpetGitHubRelease`: walk the release feed in its native order,
`continue` past drafts and (unless `includePrereleases`) prereleases, and
return the result built from the first release owning a matching asset;
`null` when the feed fetch failed or nothing matches. -/
def fetchCarpetGitHubRelease (fetchRes : Option (List GHRelease))
    (targetMc : String) (includePrereleases : Bool) : Option GHResult :=
  match fetchRes with
  | none => none
  | some releases =>
    releases.findSome? fun r =>
      if r.draft then none
      else if !includePrereleases && r.prerelease then none
      else
        match r.assets.find? (assetMatches targetMc) with
        | some a => some (mkGHResult r a)
        | none => none

/-- Project metadata from the batched Modrinth lookup (the fields the row
builder reads). -/
structure Project where
  slug : Option String
  title : Option String
  project_type : Option String
  loaders : Option (List String)
  deriving Repr, DecidableEq

/-- The representative version remembered for a project during aggregation
(`projectEntries.get(pid).anyVersion`): the fields the row builder reads. -/
structure RepInfo where
  name : Option String
  version_number : Option String
  deriving Repr, DecidableEq

/-- `getLoaderForProject`: mods use the pack loader; other categories use the
project's first listed loader when available, else `minecraft` for
resource/shader packs and the pack loader otherwise. -/
def getLoaderForProject (proj : Option Project) (cat packLoader : String) : String :=
  if cat = "mod" then packLoader
  else
    match proj with
    | some p =>
      (match p.loaders with
       | some (l :: _) => l
       | _ =>
         if cat = "resourcepack" || cat = "shaderpack" then "minecraft" else packLoader)
    | none =>
      if cat = "resourcepack" || cat = "shaderpack" then "minecraft" else packLoader

/-- The fallback allow-list test:
`(proj?.slug === "fabric-carpet") || (pid === "TQTTVgYE")`. -/
def isCarpetIdentity (pid : String) (proj : Option Project) : Bool :=
  (match proj with
   | some p => p.slug == some "fabric-carpet"
   | none => false) || pid == "TQTTVgYE"

/-- The value held by the local `best`: either the Modrinth candidate or the
GitHub fallback object. -/
inductive BestPick where
  | mr (v : Version)
  | ghr (g : GHResult)
  deriving Repr, DecidableEq

/-- One resolution row, as returned by the per-project task of
`Modpack.analyze`. -/
structure AnalyzeRow where
  project_id : String
  project_url : String
  category : String
  name : String
  slug : Option String
  current_version_number : String
  current_mc : String
  target_loader : String
  target_available : Bool
  target_version_number : String
  target_mc : String
  target_date : Option Int
  download_url : Option String
  source : String
  target_file_sha1 : Option String
  target_file_sha512 : Option String
  target_file_size : Option Nat
  target_file_url : Option String
  target_file_name : Option String
  deriving Repr, DecidableEq

/-- The `typePath` conditional chain used to build the badge link. -/
def typePathOf (proj : Option Project) (cat : String) : String :=
  if (proj.bind (·.project_type)) = some "mod" || cat = "mod" then "mod"
  else if (proj.bind (·.project_type)) = some "resourcepack" || cat = "resourcepack" then "resourcepack"
  else if (proj.bind (·.project_type)) = some "shader" || cat = "shaderpack" then "shader"
  else "project"

/-- The per-project resolution task body of `Modpack.analyze` (script.js
lines 372-424). Network responses are explicit inputs: `fetchedVersions` is
what `fetchModrinthVersions` produced for this project (`none` = request
failed), `ghFeed` is the GitHub release feed (`none` = request failed). The
second component records whether the Carpet fallback fetch was invoked. -/
def resolveRow (pid cat : String) (rep : Option RepInfo) (proj : Option Project)
    (packMc targetMc packLoader : String)
    (fetchedVersions : Option (List Version))
    (ghFeed : Option (List GHRelease)) : AnalyzeRow × Bool :=
  let loader := getLoaderForProject proj cat packLoader
  let bestModrinth := getBestTargetVersion fetchedVersions
  let source0 := if proj.isSome then "modrinth" else "none"
  let invoked := bestModrinth.isNone && isCarpetIdentity pid proj
  let gh := if invoked then fetchCarpetGitHubRelease ghFeed targetMc false else none
  let best : Option BestPick :=
    match bestModrinth with
    | some v => some (.mr v)
    | none => gh.map .ghr
  let source := if invoked && gh.isSome then "github-fallback" else source0
  let fmeta := pickPrimaryFile bestModrinth
  let project_url :=
    match jsStrOpt (proj.bind (·.slug)) with
    | some slug => "https://modrinth.com/" ++ typePathOf proj cat ++ "/" ++ slug
    | none => "https://modrinth.com/project/" ++ pid
  let row : AnalyzeRow :=
    { project_id := pid
      project_url := project_url
      category := cat
      name := jsStrOr (proj.bind (·.title)) (jsStrOr (rep.bind (·.name)) "(unknown)")
      slug := proj.bind (·.slug)
      current_version_number := jsStrOr (rep.bind (·.version_number)) "-"
      current_mc := packMc
      target_loader := loader
      target_available := best.isSome
      target_version_number :=
        (match best with
         | some (.mr v) => jsStrOr (some v.version_number) "-"
         | some (.ghr g) => jsStrOr (some g.version_number) "-"
         | none => "-")
      target_mc := targetMc
      target_date :=
        (match best with
         | some (.mr v) => jsIntOpt (some v.date_published)
         | some (.ghr g) => jsIntOpt g.date_published
         | none => none)
      download_url :=
        (match best with
         | some (.mr v) => jsStrOpt (v.files.head?.bind (·.url))
         | some (.ghr g) => jsStrOpt (some g.download_url)
         | none => none)
      source := source
      target_file_sha1 := jsStrOpt (fmeta.bind (·.sha1))
      target_file_sha512 := jsStrOpt (fmeta.bind (·.sha512))
      target_file_size := fmeta.bind (·.size)
      target_file_url := jsStrOpt (fmeta.bind (·.url))
      target_file_name := jsStrOpt (fmeta.bind (·.filename)) }
  (row, invoked)

/-- An original manifest file entry, as remembered in `projectIdToOrigFile`
(the fields the builder reads: `path`, `env`). -/
structure EnvReq where
  client : String
  server : String
  deriving Repr, DecidableEq

structure OrigFile where
  path : Option String
  env : Option EnvReq
  deriving Repr, DecidableEq

/-- One entry of the rebuilt manifest's `files` array. -/
structure FileRecord where
  path : String
  sha512 : Option String
  sha1 : Option String
  env : EnvReq
  downloads : List (Option String)
  fileSize : Option Nat
  deriving Repr, DecidableEq

/-- The builder's inclusion filter: `r.target_available && r.source ===
"modrinth" && r.target_file_sha512 && r.target_file_sha1 &&
r.target_file_size && r.target_file_url` (JS truthiness). -/
def includableRow (r : AnalyzeRow) : Bool :=
  r.target_available && r.source == "modrinth" &&
    truthyStr r.target_file_sha512 && truthyStr r.target_file_sha1 &&
    truthyNat r.target_file_size && truthyStr r.target_file_url

/-- `inferPathFromCategory`. -/
def inferPathFromCategory (r : AnalyzeRow) : String :=
  if r.category = "resourcepack" then "resourcepacks/" ++ jsStrOr r.slug "resourcepack" ++ ".zip"
  else if r.category = "shaderpack" then "shaderpacks/" ++ jsStrOr r.slug "shaderpack" ++ ".zip"
  else "mods/" ++ jsStrOr r.slug "mod" ++ ".jar"

/-- The emitted path of an included row: `of.path || inferPathFromCategory(row)`
where `of = projectIdToOrigFile.get(row.project_id) || {}`. -/
def rowPath (orig : String → Option OrigFile) (r : AnalyzeRow) : String :=
  match jsStrOpt ((orig r.project_id).bind (·.path)) with
  | some p => p
  | none => inferPathFromCategory r

/-- The file-record loop of `Modpack.build`: one record per includable row, in
row order. -/
def buildFileRecords (rows : List AnalyzeRow) (orig : String → Option OrigFile) :
    List FileRecord :=
  (rows.filter includableRow).map fun row =>
    { path := rowPath orig row
      sha512 := row.target_file_sha512
      sha1 := row.target_file_sha1
      env := ((orig row.project_id).bind (·.env)).getD ⟨"required", "required"⟩
      downloads := [row.target_file_url]
      fileSize := row.target_file_size }

/-- The excluded-items report of `Modpack.build`: available rows that are not
primary-origin or are missing cached metadata. -/
def skippedRows (rows : List AnalyzeRow) : List AnalyzeRow :=
  rows.filter fun r =>
    r.target_available &&
      !(r.source == "modrinth" &&
        truthyStr r.target_file_sha512 && truthyStr r.target_file_sha1 &&
        truthyNat r.target_file_size && truthyStr r.target_file_url)

/-- JS object update `obj[k] = v` on an insertion-ordered key/value list:
replace the value in place when the key exists, else append. -/
def setDep (deps : List (String × String)) (k v : String) : List (String × String) :=
  if deps.any (fun p => p.1 == k) then
    deps.map fun p => if p.1 == k then (k, v) else p
  else deps ++ [(k, v)]

/-- JS property read `obj[k]` on the key/value list. -/
def lookupDep (deps : List (String × String)) (k : String) : Option String :=
  (deps.find? (fun p => p.1 == k)).map (·.2)

/-- One entry of the Fabric meta response (`x.loader.stable`,
`x.loader.version`). -/
structure LoaderEntry where
  stable : Bool
  version : Option String
  deriving Repr, DecidableEq

/-- `getRecommendedLoaderVersion`: `null` unless the loader is `fabric`;
otherwise, from the fetched array (`none` = request failed or non-array),
the first stable entry, else the first entry, and its `version || null`. -/
def getRecommendedLoaderVersion (fetchRes : Option (List LoaderEntry))
    ( _targetMc loaderName : String) : Option String :=
  if loaderName ≠ "fabric" then none
  else
    match fetchRes with
    | none => none
    | some arr =>
      let pick :=
        match arr.find? (·.stable) with
        | some x => some x
        | none => arr.head?
      match pick with
      | some x => jsStrOpt x.version
      | none => none

/-- The parts of the rebuilt `modrinth.index.json` the claims are about. -/
structure BuildOutcome where
  dependencies : List (String × String)
  files : List FileRecord
  name : String
  loaderNote : String
  deriving Repr, DecidableEq

/-- The index-rebuild portion of `Modpack.build`: include the eligible rows'
file records, pin `minecraft` to the target version, and recompute the
`fabric-loader` pin by one best-effort lookup — on success set it, on failure
keep an existing pin (note "Kept existing ...") or leave it unset (note
"... not set ..."). `fabricMeta` is the Fabric meta response (`none` =
lookup failed). -/
def buildIndex (rows : List AnalyzeRow) (orig : String → Option OrigFile)
    (oldDeps : List (String × String)) (packName : Option String)
    (targetMc selectedLoader : String)
    (fabricMeta : Option (List LoaderEntry)) : BuildOutcome :=
  let fileRecords := buildFileRecords rows orig
  let deps1 := setDep oldDeps "minecraft" targetMc
  let step :=
    if selectedLoader = "fabric" then
      match getRecommendedLoaderVersion fabricMeta targetMc "fabric" with
      | some rec =>
        (setDep deps1 "fabric-loader" rec, "Fabric Loader set to " ++ rec ++ ".")
      | none =>
        match jsStrOpt (lookupDep deps1 "fabric-loader") with
        | some old =>
          (deps1, "Kept existing Fabric Loader " ++ old ++ " (meta lookup failed).")
        | none => (deps1, "Fabric Loader not set (meta lookup failed).")
    else (deps1, "")
  { dependencies := step.1
    files := fileRecords
    name := (jsStrOr packName "Pack").dropRightWhile (·.isWhitespace) ++ " (for " ++ targetMc ++ ")"
    loaderNote := step.2 }

/-- `const MAX_CONCURRENCY = 6`. -/
def MAX_CONCURRENCY : Nat := 6

/-- Observable scheduler events: a task's `fn` being invoked, and a task's
promise settling (its `finally` running). -/
inductive SchedEvent where
  | start (idx : Nat)
  | finish (idx : Nat)
  deriving Repr, DecidableEq

/-- The suspension points of `mapLimitProgress`'s control flow:
at the outer `while` test; at the inner `while` test; suspended at
`await run(i++)` (that is, at `await p` for task `idx`); at the
`if (running.size)` line; suspended at `await Promise.race(running)`. -/
inductive SchedPC where
  | outer
  | inner
  | awaitRun (idx : Nat)
  | race
  | awaitRace
  deriving Repr, DecidableEq

/-- The mutable state of one `mapLimitProgress` call: the dispatch cursor `i`,
the completion counter `done`, the output array `out`, the `running` set
(indices of started, unsettled tasks), the log of `onTick` calls, the event
log, and the control position. -/
structure MLPState (β : Type) where
  i : Nat
  done : Nat
  out : List (Option β)
  running : List Nat
  ticks : List (Nat × Nat)
  events : List SchedEvent
  pc : SchedPC
  deriving Repr, DecidableEq

/-- How a `mapLimitProgress` call ends: its returned array, or the rejection
it propagates. -/
inductive MLPResult (β ε : Type) where
  | returned (out : List (Option β))
  | rejected (e : ε)
  deriving Repr, DecidableEq

/-- One small step: either an intermediate state, or termination together
with the state at that moment. -/
inductive MLPStep (β ε : Type) where
  | next (s : MLPState β)
  | final (r : MLPResult β ε) (s : MLPState β)
  deriving Repr, DecidableEq

/-- Settling task `j`: `.then(v => out[idx] = v)` runs on success only, then
`.finally` removes the promise from `running`, increments `done` and fires
`onTick(done, n)` — on success and failure alike. -/
def mlpSettle (n : Nat) (task : Nat → Except ε β) (s : MLPState β) (j : Nat) :
    MLPState β :=
  { s with
    out := match task j with
           | .ok v => s.out.set j (some v)
           | .error _ => s.out
    running := s.running.erase j
    done := s.done + 1
    ticks := s.ticks ++ [(s.done + 1, n)]
    events := s.events ++ [.finish j] }

/-- One step of the `mapLimitProgress` state machine, with `n` tasks given by
`task`, concurrency ceiling `limit`, and adversarial completion schedule `σ`
(at each suspension point, `σ` picks which in-flight promise settles next).

The transitions mirror the JS control flow: the outer test returns `out` once
`i` reaches `n`; the inner test dispatches task `i` (invoking `fn` and adding
its promise to `running`) and suspends at `await run(i)` while the bound and
the queue allow, else falls to the race line; at `await run(idx)`, a settled
task runs its `then`/`finally` handlers, and if it is `idx` itself, a
fulfilled promise resumes the inner loop while a rejected one propagates out
of `mapLimitProgress` (a settled task other than `idx` leaves the await
pending — an unawaited rejection is merely logged); the race line suspends on
`Promise.race(running)` only when `running` is non-empty (an empty race, or an
await nobody can settle, hangs forever, modelled by a self-loop). -/
def mlpStep (n : Nat) (task : Nat → Except ε β) (limit : Nat) (σ : Nat → Nat)
    (s : MLPState β) : MLPStep β ε :=
  match s.pc with
  | .outer =>
    if s.i < n then .next { s with pc := .inner }
    else .final (.returned s.out) s
  | .inner =>
    if s.running.length < limit ∧ s.i < n then
      .next { s with
              i := s.i + 1
              running := s.running ++ [s.i]
              events := s.events ++ [.start s.i]
              pc := .awaitRun s.i }
    else .next { s with pc := .race }
  | .awaitRun idx =>
    match s.running with
    | [] => .next s
    | r0 :: rs =>
      let j := (r0 :: rs).getD (σ s.done % (r0 :: rs).length) r0
      let s2 := mlpSettle n task s j
      if j = idx then
        match task j with
        | .ok _ => .next { s2 with pc := .inner }
        | .error e => .final (.rejected e) s2
      else .next { s2 with pc := .awaitRun idx }
  | .race =>
    if s.running.isEmpty then .next { s with pc := .outer }
    else .next { s with pc := .awaitRace }
  | .awaitRace =>
    match s.running with
    | [] => .next s
    | r0 :: rs =>
      let j := (r0 :: rs).getD (σ s.done % (r0 :: rs).length) r0
      let s2 := mlpSettle n task s j
      match task j with
      | .ok _ => .next { s2 with pc := .outer }
      | .error e => .final (.rejected e) s2

/-- Run the state machine for at most `fuel` steps; `none` means it was still
running (the model of divergence). -/
def mlpRun (n : Nat) (task : Nat → Except ε β) (limit : Nat) (σ : Nat → Nat) :
    Nat → MLPState β → Option (MLPResult β ε × MLPState β)
  | 0, _ => none
  | fuel + 1, s =>
    match mlpStep n task limit σ s with
    | .next s2 => mlpRun n task limit σ fuel s2
    | .final r s2 => some (r, s2)

/-- The list of states visited in the first `fuel` steps (including the state
at termination). -/
def mlpTrace (n : Nat) (task : Nat → Except ε β) (limit : Nat) (σ : Nat → Nat) :
    Nat → MLPState β → List (MLPState β)
  | 0, s => [s]
  | fuel + 1, s =>
    s ::
      (match mlpStep n task limit σ s with
       | .next s2 => mlpTrace n task limit σ fuel s2
       | .final _ s2 => [s2])

/-- The entry state: `out = new Array(n)`, nothing dispatched, at the outer
test. -/
def mlpInit (n : Nat) : MLPState β :=
  { i := 0, done := 0, out := List.replicate n none, running := [],
    ticks := [], events := [], pc := .outer }

/-- Enough fuel for a full run (each task costs one dispatch and one settle
step, plus the entry and exit transitions). -/
def mlpFuel (n : Nat) : Nat := 2 * n + 8

/-- `mapLimitProgress(items, limit, fn, onTick)` under completion schedule
`σ`: run the state machine on the indexed tasks `fn(items[idx])`. (Reachable
indices are always in range; `getD` merely totalises the lookup.) -/
def mapLimitProgress [Inhabited α] (items : List α) (limit : Nat)
    (fn : α → Except ε β) (σ : Nat → Nat) :
    Option (MLPResult β ε × MLPState β) :=
  mlpRun items.length (fun idx => fn (items.getD idx default)) limit σ
    (mlpFuel items.length) (mlpInit items.length)

/-- The states `mapLimitProgress` passes through under schedule `σ`. -/
def mapLimitTrace [Inhabited α] (items : List α) (limit : Nat)
    (fn : α → Except ε β) (σ : Nat → Nat) : List (MLPState β) :=
  mlpTrace items.length (fun idx => fn (items.getD idx default)) limit σ
    (mlpFuel items.length) (mlpInit items.length)

/-- Modelled from the spec: the reference result of "running the same tasks
sequentially in input order" — slot `idx` of the output array holds the value
task `idx` fulfilled with. -/
def sequentialSpec [Inhabited α] (items : List α) (fn : α → Except ε β) :
    List (Option β) :=
  items.map fun a => (fn a).toOption

/-- The release predicate under which the Carpet fallback (with default
options) accepts a release: not a draft, not a prerelease, and owning a
matching asset. -/
def carpetEligible (mc : String) (r : GHRelease) : Bool :=
  !r.draft && !r.prerelease && (r.assets.find? (assetMatches mc)).isSome

/-- The canonical intermediate state of the scheduler: `k` tasks dispatched
and settled, control back at the inner `while` test, nothing in flight. -/
def midState (k : Nat) (o : List (Option β)) (t : List (Nat × Nat))
    (ev : List SchedEvent) : MLPState β :=
  { i := k, done := k, out := o, running := [], ticks := t, events := ev, pc := .inner }

/-- Overwrite slots `k, k+1, ..., k+c-1` of `o` with the tasks' values. -/
def mlpFill (task : Nat → Except ε β) : Nat → Nat → List (Option β) → List (Option β)
  | 0, _, o => o
  | c + 1, k, o => mlpFill task c (k + 1) (o.set k (task k).toOption)

/-- A concrete packageable primary-origin row, for instance checks. -/
def exampleModrinthRow (pid : String) : AnalyzeRow :=
  { project_id := pid, project_url := "https://modrinth.com/mod/x", category := "mod",
    name := "X", slug := some "x", current_version_number := "1.0", current_mc := "1.20.1",
    target_loader := "fabric", target_available := true, target_version_number := "2.0",
    target_mc := "1.21.4", target_date := some 1, download_url := some "https://cdn/x.jar",
    source := "modrinth", target_file_sha1 := some "a1", target_file_sha512 := some "a512",
    target_file_size := some 10, target_file_url := some "https://cdn/x.jar",
    target_file_name := some "x.jar" }

/-- A concrete available fallback-origin row, for instance checks. -/
def exampleFallbackRow : AnalyzeRow :=
  { project_id := "TQTTVgYE", project_url := "https://modrinth.com/mod/fabric-carpet",
    category := "mod", name := "Carpet", slug := some "fabric-carpet",
    current_version_number := "1.4", current_mc := "1.20.1", target_loader := "fabric",
    target_available := true, target_version_number := "1.21.4-1.4.147",
    target_mc := "1.21.4", target_date := some 2,
    download_url := some "https://github.com/x.jar", source := "github-fallback",
    target_file_sha1 := none, target_file_sha512 := none, target_file_size := none,
    target_file_url := none, target_file_name := none }

/-- An original-file table sending every identity to one shared path, the
shape a manifest listing the same path twice produces. -/
def exampleDupOrig : String → Option OrigFile :=
  fun _ => some { path := some "mods/a.jar", env := some ⟨"required", "required"⟩ }


/-- A concrete release feed: a draft, a prerelease, then an eligible release
with a matching second asset. -/
def exampleFeed : List GHRelease :=
  [ { draft := true, prerelease := false, tag_name := some "t0", published_at := none,
      created_at := none, assets := [⟨"fabric-carpet-1.21.4.jar", "u0"⟩] },
    { draft := false, prerelease := true, tag_name := some "t1", published_at := none,
      created_at := none, assets := [⟨"fabric-carpet-1.21.4.jar", "u1"⟩] },
    { draft := false, prerelease := false, tag_name := some "1.21.4-1.4.147",
      published_at := some 5, created_at := none,
      assets := [⟨"notes.txt", "x"⟩, ⟨"fabric-carpet-1.21.4.jar", "u2"⟩] } ]

/-- The shape invariant of reachable scheduler states: while suspended at
`await run(idx)` exactly the promise of task `idx` is in `running`; at every
other control point `running` is empty. -/
def mlpGood (s : MLPState β) : Prop :=
  match s.pc with
  | .awaitRun idx => s.running = [idx]
  | _ => s.running = []

/-! Key/value update laws for the dependency map. -/

theorem find?_map_set (deps : List (String × String)) (k v : String) :
    (deps.map fun p => if p.1 == k then (k, v) else p).find? (fun p => p.1 == k) =
      if deps.any (fun p => p.1 == k) then some (k, v) else none := by
  induction deps with
  | nil => rfl
  | cons p ps IH =>
    by_cases hp : p.1 == k
    · rw [List.map_cons, if_pos hp, List.find?_cons_of_pos _ (by simp), List.any_cons, hp]
      simp
    · have hpf : (p.1 == k) = false := by simpa using hp
      rw [List.map_cons, if_neg hp, List.find?_cons_of_neg _ (by simpa using hp), IH,
        List.any_cons, hpf, Bool.false_or]

theorem find?_map_set_ne (deps : List (String × String)) (k v k2 : String) (h : k2 ≠ k) :
    (deps.map fun p => if p.1 == k then (k, v) else p).find? (fun p => p.1 == k2) =
      deps.find? (fun p => p.1 == k2) := by
  induction deps with
  | nil => rfl
  | cons p ps IH =>
    by_cases hp : p.1 == k
    · have hpk : p.1 = k := by simpa using hp
      have hkk2 : (k == k2) = false := by
        simp only [beq_eq_false_iff_ne, ne_eq]
        exact fun hc => h hc.symm
      have hpk2 : (p.1 == k2) = false := by rw [hpk]; exact hkk2
      rw [List.map_cons, if_pos hp]
      simp only [List.find?_cons, hkk2, hpk2]
      exact IH
    · rw [List.map_cons, if_neg hp]
      by_cases hp2 : p.1 == k2
      · simp only [List.find?_cons, hp2]
      · have hp2f : (p.1 == k2) = false := by simpa using hp2
        simp only [List.find?_cons, hp2f]
        exact IH

/-- `obj[k] = v` followed by reading `k` yields `v`. -/
theorem lookupDep_setDep_self (deps : List (String × String)) (k v : String) :
    lookupDep (setDep deps k v) k = some v := by
  unfold setDep lookupDep
  by_cases hany : deps.any (fun p => p.1 == k)
  · rw [if_pos hany, find?_map_set, if_pos hany]
    rfl
  · rw [if_neg hany, List.find?_append]
    have hnone : deps.find? (fun p => p.1 == k) = none := by
      rw [List.find?_eq_none]
      intro x hx hpx
      exact hany (List.any_eq_true.mpr ⟨x, hx, hpx⟩)
    rw [hnone]
    simp

/-- `obj[k] = v` leaves every other key's value unchanged. -/
theorem lookupDep_setDep_ne (deps : List (String × String)) (k v k2 : String) (h : k2 ≠ k) :
    lookupDep (setDep deps k v) k2 = lookupDep deps k2 := by
  unfold setDep lookupDep
  by_cases hany : deps.any (fun p => p.1 == k)
  · rw [if_pos hany, find?_map_set_ne deps k v k2 h]
  · rw [if_neg hany, List.find?_append]
    have hk : ((k, v).1 == k2) = false := by
      simp only [beq_eq_false_iff_ne, ne_eq]
      exact fun hc => h hc.symm
    cases hfind : deps.find? (fun p => p.1 == k2) with
    | none => simp [hk]
    | some q => simp

/-! Properties of the version comparator. -/

theorem jsLe_iff (a b : Version) :
    jsLe a b = true ↔
      (tierOf b < tierOf a ∨ (tierOf b = tierOf a ∧ b.date_published ≤ a.date_published)) := by
  unfold jsLe cmpVersions
  by_cases h : tierOf b - tierOf a ≠ 0 <;> simp [h] <;> omega

theorem jsLe_false_iff (a b : Version) :
    jsLe a b = false ↔
      (tierOf a < tierOf b ∨ (tierOf a = tierOf b ∧ a.date_published < b.date_published)) := by
  have h := jsLe_iff a b
  constructor
  · intro hf
    have hneg : ¬ (tierOf b < tierOf a ∨ (tierOf b = tierOf a ∧ b.date_published ≤ a.date_published)) := by
      intro hc
      rw [← h] at hc
      rw [hf] at hc
      exact Bool.false_ne_true hc
    omega
  · intro hlt
    rcases Bool.eq_false_or_eq_true (jsLe a b) with ht | hf
    · rw [h] at ht
      omega
    · exact hf

theorem jsLe_refl (a : Version) : jsLe a a = true := by
  rw [jsLe_iff]; omega

theorem jsLe_trans : ∀ (a b c : Version), jsLe a b → jsLe b c → jsLe a c := by
  intro a b c hab hbc
  rw [jsLe_iff] at *
  omega

theorem jsLe_total : ∀ (a b : Version), jsLe a b || jsLe b a := by
  intro a b
  rcases Bool.eq_false_or_eq_true (jsLe a b) with h | h
  · simp [h]
  · rw [jsLe_false_iff] at h
    have : jsLe b a = true := by rw [jsLe_iff]; omega
    simp [this]

/-- The head of the stable tier/date sort is the earliest-listed candidate
among those maximal for the (tier, date) lexicographic key. -/
theorem head_mergeSort_jsLe :
    ∀ (vs : List Version), vs ≠ [] →
      ∃ (i : Nat) (m : Version), (vs.mergeSort jsLe).head? = some m ∧ vs[i]? = some m ∧
        (∀ v ∈ vs, jsLe m v = true) ∧
        (∀ j w, j < i → vs[j]? = some w → jsLe w m = false) := by
  intro vs
  induction vs with
  | nil => intro h; exact absurd rfl h
  | cons a l IH =>
    intro _
    by_cases hl : l = []
    · subst hl
      refine ⟨0, a, by simp, by simp, ?_, by omega⟩
      intro v hv
      rw [List.mem_singleton] at hv
      rw [hv]
      exact jsLe_refl a
    · obtain ⟨i2, m2, hh2, hi2, hall2, hpre2⟩ := IH hl
      obtain ⟨l₁, l₂, h₁, h₂, h₃⟩ := List.mergeSort_cons jsLe_trans jsLe_total a l
      rcases l₁ with _ | ⟨c, l₁'⟩
      · simp only [List.nil_append] at h₁ h₂
        have hsorted : (List.mergeSort (a :: l) jsLe).Pairwise (jsLe · ·) :=
          List.sorted_mergeSort jsLe_trans jsLe_total (a :: l)
        rw [h₁, List.pairwise_cons] at hsorted
        refine ⟨0, a, by simp [h₁], by simp, ?_, by omega⟩
        intro v hv
        rcases List.mem_cons.mp hv with rfl | hv
        · exact jsLe_refl _
        · exact hsorted.1 v (by rw [← h₂, List.mem_mergeSort]; exact hv)
      · have hcm : c = m2 := by
          rw [h₂] at hh2
          simp only [List.cons_append, List.head?_cons] at hh2
          exact Option.some.inj hh2
        subst hcm
        have ham2 : jsLe a c = false := by
          have := h₃ c (List.mem_cons_self _ _)
          simpa using this
        have hca : jsLe c a = true := by
          have := jsLe_total a c
          rw [ham2] at this
          simpa using this
        refine ⟨i2 + 1, c, ?_, by simpa using hi2, ?_, ?_⟩
        · rw [h₁]
          simp
        · intro v hv
          rcases List.mem_cons.mp hv with rfl | hv
          · exact hca
          · exact hall2 v hv
        · intro j w hj hw
          match j with
          | 0 =>
            simp only [List.getElem?_cons_zero, Option.some.injEq] at hw
            subst hw
            exact ham2
          | j' + 1 =>
            simp only [List.getElem?_cons_succ] at hw
            exact hpre2 j' w (by omega) hw

/-- C4: given a non-empty candidate list already restricted to the target
runtime and loader, `getBestTargetVersion` returns exactly the candidate
maximal by stability tier descending (release=3, beta=2, other=1), then by
publish timestamp descending, with residual ties broken by provider order
(stable sort, earliest-listed wins); in particular, for candidates
`[{tier 1, T1}, {tier 3, T2}, {tier 3, T3}]` with `T2 < T3` it returns the
third candidate. -/
theorem C4_version_selection_policy (vs : List Version) (hne : vs ≠ []) :
    (∃ (i : Nat) (m : Version), getBestTargetVersion (some vs) = some m ∧ vs[i]? = some m ∧
      (∀ v ∈ vs, tierOf v < tierOf m ∨
        (tierOf v = tierOf m ∧ v.date_published ≤ m.date_published)) ∧
      (∀ j w, j < i → vs[j]? = some w →
        tierOf w < tierOf m ∨
          (tierOf w = tierOf m ∧ w.date_published < m.date_published))) ∧
    (∀ (t1 t2 t3 : Int) (n1 n2 n3 : String) (f1 f2 f3 : List VFile), t2 < t3 →
      getBestTargetVersion (some [⟨"alpha", t1, n1, f1⟩, ⟨"release", t2, n2, f2⟩,
        ⟨"release", t3, n3, f3⟩]) = some ⟨"release", t3, n3, f3⟩) := by
  constructor
  · obtain ⟨i, m, hh, hi, hall, hpre⟩ := head_mergeSort_jsLe vs hne
    have hemp : vs.isEmpty = false := by
      cases vs with
      | nil => exact absurd rfl hne
      | cons x xs => rfl
    refine ⟨i, m, ?_, hi, ?_, ?_⟩
    · simpa [getBestTargetVersion, hemp] using hh
    · intro v hv
      have h := hall v hv
      rw [jsLe_iff] at h
      exact h
    · intro j w hj hw
      have h := hpre j w hj hw
      rw [jsLe_false_iff] at h
      exact h
  · intro t1 t2 t3 n1 n2 n3 f1 f2 f3 h23
    obtain ⟨i, m, hh, hi, hall, hpre⟩ :=
      head_mergeSort_jsLe
        [⟨"alpha", t1, n1, f1⟩, ⟨"release", t2, n2, f2⟩, ⟨"release", t3, n3, f3⟩]
        (by simp)
    have hmem : m ∈ [(⟨"alpha", t1, n1, f1⟩ : Version), ⟨"release", t2, n2, f2⟩,
        ⟨"release", t3, n3, f3⟩] := by
      have := List.getElem?_eq_some_iff.mp hi
      obtain ⟨hlt, hget⟩ := this
      rw [← hget]
      exact List.getElem_mem hlt
    have ht1 : tierOf ⟨"alpha", t1, n1, f1⟩ = 1 := by simp [tierOf]
    have ht2 : tierOf ⟨"release", t2, n2, f2⟩ = 3 := by simp [tierOf]
    have ht3 : tierOf ⟨"release", t3, n3, f3⟩ = 3 := by simp [tierOf]
    simp only [List.mem_cons, List.not_mem_nil, or_false] at hmem
    have hgoal : m = ⟨"release", t3, n3, f3⟩ := by
      rcases hmem with h | h | h
      · exfalso
        have h2 := hall ⟨"release", t2, n2, f2⟩ (by simp)
        rw [jsLe_iff] at h2
        rw [h] at h2
        simp [tierOf] at h2
      · exfalso
        have h3 := hall ⟨"release", t3, n3, f3⟩ (by simp)
        rw [jsLe_iff] at h3
        rw [h] at h3
        simp [tierOf] at h3
        omega
      · exact h
    rw [hgoal] at hh
    simpa [getBestTargetVersion] using hh

theorem fetchCarpet_eq_find (releases : List GHRelease) (mc : String) :
    fetchCarpetGitHubRelease (some releases) mc false =
      (releases.find? (carpetEligible mc)).bind
        (fun r => (r.assets.find? (assetMatches mc)).map (mkGHResult r)) := by
  induction releases with
  | nil => rfl
  | cons r rs IH =>
    simp only [fetchCarpetGitHubRelease, Bool.not_false, Bool.true_and] at IH ⊢
    rw [List.findSome?_cons, List.find?_cons]
    by_cases hd : r.draft
    · simp [carpetEligible, hd, IH]
    · by_cases hp : r.prerelease
      · simp [carpetEligible, hd, hp, IH]
      · cases hf : r.assets.find? (assetMatches mc) with
        | none => simp [carpetEligible, hd, hp, hf, IH]
        | some a => simp [carpetEligible, hd, hp, hf]

/-- C8: the Carpet fallback skips draft releases and (by default) prerelease
releases, matches asset names against the target-version token via the
word-boundary test, and returns the first release in the feed's native order
owning a matching asset; the choice involves no date comparison — rewriting
every release's dates arbitrarily leaves the selected download unchanged. -/
theorem C8_fallback_source_arbiter (releases : List GHRelease) (mc : String) :
    (fetchCarpetGitHubRelease (some releases) mc false =
      (releases.find? (carpetEligible mc)).bind
        (fun r => (r.assets.find? (assetMatches mc)).map (mkGHResult r))) ∧
    (∀ res, fetchCarpetGitHubRelease (some releases) mc false = some res →
      ∃ r, r ∈ releases ∧ r.draft = false ∧ r.prerelease = false ∧
        ∃ a, r.assets.find? (assetMatches mc) = some a ∧ res = mkGHResult r a) ∧
    (∀ (f g : GHRelease → Option Int),
      (fetchCarpetGitHubRelease
          (some (releases.map fun r => { r with published_at := f r, created_at := g r }))
          mc false).map (·.download_url) =
        (fetchCarpetGitHubRelease (some releases) mc false).map (·.download_url)) := by
  refine ⟨fetchCarpet_eq_find releases mc, ?_, ?_⟩
  · intro res hres
    rw [fetchCarpet_eq_find] at hres
    cases hfind : releases.find? (carpetEligible mc) with
    | none => rw [hfind] at hres; exact absurd hres (by simp)
    | some r =>
      rw [hfind] at hres
      have hpred := List.find?_some hfind
      have hmem := List.mem_of_find?_eq_some hfind
      simp only [carpetEligible, Bool.and_eq_true, Bool.not_eq_true'] at hpred
      obtain ⟨⟨hd, hp⟩, hs⟩ := hpred
      cases hfa : r.assets.find? (assetMatches mc) with
      | none => rw [hfa] at hs; exact absurd hs (by simp)
      | some a =>
        refine ⟨r, hmem, hd, hp, a, hfa, ?_⟩
        simp only [Option.some_bind] at hres
        rw [hfa] at hres
        simp only [Option.map_some'] at hres
        exact (Option.some.inj hres).symm
  · intro f g
    rw [fetchCarpet_eq_find, fetchCarpet_eq_find]
    rw [List.find?_map]
    have hcomp : (carpetEligible mc ∘ fun r : GHRelease =>
        { r with published_at := f r, created_at := g r }) = carpetEligible mc := rfl
    rw [hcomp]
    cases releases.find? (carpetEligible mc) with
    | none => rfl
    | some r =>
      simp only [Option.map_some', Option.some_bind]
      cases r.assets.find? (assetMatches mc) with
      | none => rfl
      | some a => rfl

/-- C10: the artifact metadata cached on a row comes from the chosen version's
file entry flagged `primary` when one exists, otherwise from the first listed
file; a version with an empty (or missing) file list yields no cached
metadata, and such a row is excluded by the builder's inclusion filter. -/
theorem C10_primary_file_metadata :
    (pickPrimaryFile none = none) ∧
    (∀ v : Version, v.files = [] → pickPrimaryFile (some v) = none) ∧
    (∀ (v : Version) (f : VFile), v.files.find? (·.primary) = some f →
      pickPrimaryFile (some v) = some f) ∧
    (∀ v : Version, v.files ≠ [] → v.files.find? (·.primary) = none →
      pickPrimaryFile (some v) = v.files.head?) ∧
    (∀ pid cat rep proj packMc targetMc packLoader fetched ghFeed f,
      pickPrimaryFile (getBestTargetVersion fetched) = some f →
      ((resolveRow pid cat rep proj packMc targetMc packLoader fetched ghFeed).1.target_file_sha1 =
          jsStrOpt f.sha1 ∧
        (resolveRow pid cat rep proj packMc targetMc packLoader fetched ghFeed).1.target_file_sha512 =
          jsStrOpt f.sha512 ∧
        (resolveRow pid cat rep proj packMc targetMc packLoader fetched ghFeed).1.target_file_size =
          f.size ∧
        (resolveRow pid cat rep proj packMc targetMc packLoader fetched ghFeed).1.target_file_url =
          jsStrOpt f.url ∧
        (resolveRow pid cat rep proj packMc targetMc packLoader fetched ghFeed).1.target_file_name =
          jsStrOpt f.filename)) ∧
    (∀ pid cat rep proj packMc targetMc packLoader fetched ghFeed,
      pickPrimaryFile (getBestTargetVersion fetched) = none →
      ((resolveRow pid cat rep proj packMc targetMc packLoader fetched ghFeed).1.target_file_sha1 =
          none ∧
        (resolveRow pid cat rep proj packMc targetMc packLoader fetched ghFeed).1.target_file_sha512 =
          none ∧
        (resolveRow pid cat rep proj packMc targetMc packLoader fetched ghFeed).1.target_file_size =
          none ∧
        (resolveRow pid cat rep proj packMc targetMc packLoader fetched ghFeed).1.target_file_url =
          none ∧
        includableRow (resolveRow pid cat rep proj packMc targetMc packLoader fetched ghFeed).1 =
          false)) := by
  refine ⟨rfl, ?_, ?_, ?_, ?_, ?_⟩
  · intro v hv
    simp [pickPrimaryFile, hv]
  · intro v f hf
    have hne : v.files.isEmpty = false := by
      cases hfs : v.files with
      | nil => rw [hfs] at hf; simp at hf
      | cons x xs => rfl
    simp [pickPrimaryFile, hne, hf]
  · intro v hv hf
    have hne : v.files.isEmpty = false := by
      cases hfs : v.files with
      | nil => exact absurd hfs hv
      | cons x xs => rfl
    simp [pickPrimaryFile, hne, hf]
  · intro pid cat rep proj packMc targetMc packLoader fetched ghFeed f hf
    simp only [resolveRow, hf]
    exact ⟨rfl, rfl, rfl, rfl, rfl⟩
  · intro pid cat rep proj packMc targetMc packLoader fetched ghFeed hf
    simp [resolveRow, hf, includableRow, truthyStr, truthyNat, jsStrOpt]

/-- C5: the Carpet fallback fetch is invoked exactly when the primary lookup
produced no candidate and the identity is on the allow-list (slug
`fabric-carpet` or project id `TQTTVgYE`); a non-allow-listed identity with
no primary candidate yields an unavailable row and never invokes the
arbiter. -/
theorem C5_fallback_only_for_allow_list
    (pid cat : String) (rep : Option RepInfo) (proj : Option Project)
    (packMc targetMc packLoader : String)
    (fetched : Option (List Version)) (ghFeed : Option (List GHRelease)) :
    ((resolveRow pid cat rep proj packMc targetMc packLoader fetched ghFeed).2 = true ↔
      (getBestTargetVersion fetched = none ∧ isCarpetIdentity pid proj = true)) ∧
    (getBestTargetVersion fetched = none → isCarpetIdentity pid proj = false →
      (resolveRow pid cat rep proj packMc targetMc packLoader fetched
          ghFeed).1.target_available = false ∧
        (resolveRow pid cat rep proj packMc targetMc packLoader fetched ghFeed).2 = false) := by
  constructor
  · simp [resolveRow, Option.isNone_iff_eq_none]
  · intro hbest hcarpet
    simp [resolveRow, hbest, hcarpet]

/-- C6: a resolution row is packaged iff it is primary-origin (source
`modrinth`) and carries both digests, a non-zero size and a download URL (for
rows the resolver produces, these metadata already force availability);
fallback-origin rows are never packaged but, when available, always appear in
the excluded report; for three available rows of which exactly one is
fallback-origin, the rebuilt file list has exactly two entries and the
excluded report lists exactly the fallback row. -/
theorem C6_packaging_invariant :
    (∀ pid cat rep proj packMc targetMc packLoader fetched ghFeed,
      includableRow (resolveRow pid cat rep proj packMc targetMc packLoader fetched ghFeed).1 =
        ((resolveRow pid cat rep proj packMc targetMc packLoader fetched ghFeed).1.source ==
            "modrinth" &&
          truthyStr (resolveRow pid cat rep proj packMc targetMc packLoader fetched
              ghFeed).1.target_file_sha512 &&
          truthyStr (resolveRow pid cat rep proj packMc targetMc packLoader fetched
              ghFeed).1.target_file_sha1 &&
          truthyNat (resolveRow pid cat rep proj packMc targetMc packLoader fetched
              ghFeed).1.target_file_size &&
          truthyStr (resolveRow pid cat rep proj packMc targetMc packLoader fetched
              ghFeed).1.target_file_url)) ∧
    (∀ r : AnalyzeRow, r.source = "github-fallback" → includableRow r = false) ∧
    (∀ (rows : List AnalyzeRow) (r : AnalyzeRow), r ∈ rows → r.source ≠ "modrinth" →
      r.target_available = true → r ∈ skippedRows rows) ∧
    ((buildFileRecords [exampleModrinthRow "p1", exampleModrinthRow "p2", exampleFallbackRow]
        (fun _ => none)).length = 2 ∧
      skippedRows [exampleModrinthRow "p1", exampleModrinthRow "p2", exampleFallbackRow] =
        [exampleFallbackRow]) := by
  refine ⟨?_, ?_, ?_, by decide, by decide⟩
  · intro pid cat rep proj packMc targetMc packLoader fetched ghFeed
    cases hb : getBestTargetVersion fetched with
    | none =>
      simp [resolveRow, includableRow, hb, jsStrOpt, truthyStr, truthyNat, pickPrimaryFile]
    | some v =>
      simp [resolveRow, includableRow, hb, jsStrOpt, truthyStr, truthyNat]
  · intro r hr
    simp [includableRow, hr]
  · intro rows r hmem hsource havail
    rw [skippedRows, List.mem_filter]
    refine ⟨hmem, ?_⟩
    simp [havail, hsource]

/-- C7 (amended): each included row's emitted path is the original entry's
non-empty path when the row's identity maps to one, otherwise it is
synthesized from category and slug; the build deduplicates nothing, so the
rebuilt file list's paths are exactly the includable rows mapped through this
per-row rule, and they are pairwise distinct precisely when those per-row
values are. -/
theorem C7_path_rule (rows : List AnalyzeRow) (orig : String → Option OrigFile) :
    (buildFileRecords rows orig).map (·.path) =
      (rows.filter includableRow).map (rowPath orig) ∧
    (((buildFileRecords rows orig).map (·.path)).Nodup ↔
      ((rows.filter includableRow).map (rowPath orig)).Nodup) := by
  have h1 : (buildFileRecords rows orig).map (·.path) =
      (rows.filter includableRow).map (rowPath orig) := by
    rw [buildFileRecords, List.map_map]
    rfl
  exact ⟨h1, by rw [h1]⟩

/-- C7 counterexample: two includable rows whose identities map to original
manifest entries sharing one path (as a manifest listing a path twice
produces) are both emitted with that path — the rebuilt file list's paths are
not pairwise distinct. -/
theorem C7_counterexample :
    (List.filter includableRow [exampleModrinthRow "p1", exampleModrinthRow "p2"]).length = 2 ∧
    (buildFileRecords [exampleModrinthRow "p1", exampleModrinthRow "p2"] exampleDupOrig).map
        (·.path) = ["mods/a.jar", "mods/a.jar"] ∧
    ¬ ((buildFileRecords [exampleModrinthRow "p1", exampleModrinthRow "p2"]
        exampleDupOrig).map (·.path)).Nodup := by
  exact ⟨by decide, by decide, by decide⟩

/-- C9: with the fabric loader selected, the rebuilt manifest's loader pin is
recomputed by one best-effort lookup: on success the new value is pinned and
noted; on lookup failure the dependency map's `fabric-loader` entry is left
exactly as it was in the original dependencies (retained if present, unset
otherwise), a non-fatal note is emitted, and the build still completes with
the full file list. -/
theorem C9_loader_pin_best_effort (rows : List AnalyzeRow)
    (orig : String → Option OrigFile) (oldDeps : List (String × String))
    (packName : Option String) (targetMc : String)
    (fabricMeta : Option (List LoaderEntry)) :
    (∀ rec, getRecommendedLoaderVersion fabricMeta targetMc "fabric" = some rec →
      lookupDep (buildIndex rows orig oldDeps packName targetMc "fabric"
          fabricMeta).dependencies "fabric-loader" = some rec ∧
        (buildIndex rows orig oldDeps packName targetMc "fabric" fabricMeta).loaderNote =
          "Fabric Loader set to " ++ rec ++ ".") ∧
    (getRecommendedLoaderVersion fabricMeta targetMc "fabric" = none →
      lookupDep (buildIndex rows orig oldDeps packName targetMc "fabric"
          fabricMeta).dependencies "fabric-loader" = lookupDep oldDeps "fabric-loader" ∧
        ((buildIndex rows orig oldDeps packName targetMc "fabric" fabricMeta).loaderNote =
            "Fabric Loader not set (meta lookup failed)." ∨
          ∃ old, (buildIndex rows orig oldDeps packName targetMc "fabric"
              fabricMeta).loaderNote =
            "Kept existing Fabric Loader " ++ old ++ " (meta lookup failed).")) ∧
    (buildIndex rows orig oldDeps packName targetMc "fabric" fabricMeta).files =
      buildFileRecords rows orig := by
  refine ⟨?_, ?_, rfl⟩
  · intro rec hrec
    simp only [buildIndex, hrec, if_pos rfl]
    exact ⟨lookupDep_setDep_self _ _ _, rfl⟩
  · intro hrec
    simp only [buildIndex, hrec, if_pos rfl]
    have hbase : lookupDep (setDep oldDeps "minecraft" targetMc) "fabric-loader" =
        lookupDep oldDeps "fabric-loader" := by
      refine lookupDep_setDep_ne _ _ _ _ ?_
      intro hc
      exact (by decide : ("fabric-loader" : String) ≠ "minecraft") hc
    cases hlk : jsStrOpt (lookupDep (setDep oldDeps "minecraft" targetMc) "fabric-loader") with
    | none => exact ⟨hbase, Or.inl rfl⟩
    | some old => exact ⟨hbase, Or.inr ⟨old, rfl⟩⟩

/-! The scheduler: fuel monotonicity and single-step computations. -/

theorem mlpRun_mono (n : Nat) (task : Nat → Except ε β) (limit : Nat) (σ : Nat → Nat) :
    ∀ (fuel : Nat) (s : MLPState β) (r : MLPResult β ε × MLPState β),
      mlpRun n task limit σ fuel s = some r →
      ∀ fuel2, fuel ≤ fuel2 → mlpRun n task limit σ fuel2 s = some r := by
  intro fuel
  induction fuel with
  | zero =>
    intro s r h
    simp [mlpRun] at h
  | succ f IH =>
    intro s r h fuel2 hle
    cases fuel2 with
    | zero => omega
    | succ f2 =>
      rw [mlpRun] at h ⊢
      cases hstep : mlpStep n task limit σ s with
      | next s2 =>
        rw [hstep] at h
        exact IH s2 r h f2 (by omega)
      | final r2 s2 =>
        rw [hstep] at h
        exact h

theorem mlpStep_mid_dispatch (n : Nat) (task : Nat → Except ε β) (limit : Nat)
    (σ : Nat → Nat) (k : Nat) (o : List (Option β)) (t : List (Nat × Nat))
    (ev : List SchedEvent) (hk : k < n) (hlim : 0 < limit) :
    mlpStep n task limit σ (midState k o t ev) =
      .next { i := k + 1, done := k, out := o, running := [k],
              ticks := t, events := ev ++ [.start k], pc := .awaitRun k } := by
  simp [mlpStep, midState, hk, hlim]

theorem mlpStep_run_settle_ok (n : Nat) (task : Nat → Except ε β) (limit : Nat)
    (σ : Nat → Nat) (k : Nat) (v : β) (hv : task k = .ok v)
    (o : List (Option β)) (t : List (Nat × Nat)) (ev : List SchedEvent) :
    mlpStep n task limit σ
      { i := k + 1, done := k, out := o, running := [k], ticks := t,
        events := ev ++ [.start k], pc := .awaitRun k } =
      .next (midState (k + 1) (o.set k (some v)) (t ++ [(k + 1, n)])
        (ev ++ [.start k, .finish k])) := by
  simp [mlpStep, mlpSettle, midState, hv, Nat.mod_one]

theorem mlpStep_run_settle_error (n : Nat) (task : Nat → Except ε β) (limit : Nat)
    (σ : Nat → Nat) (k : Nat) (e : ε) (he : task k = .error e)
    (o : List (Option β)) (t : List (Nat × Nat)) (ev : List SchedEvent) :
    mlpStep n task limit σ
      { i := k + 1, done := k, out := o, running := [k], ticks := t,
        events := ev ++ [.start k], pc := .awaitRun k } =
      .final (.rejected e)
        { i := k + 1, done := k + 1, out := o, running := [], ticks := t ++ [(k + 1, n)],
          events := ev ++ [.start k, .finish k], pc := .awaitRun k } := by
  simp [mlpStep, mlpSettle, he, Nat.mod_one]

theorem mlpRun_succ (n : Nat) (task : Nat → Except ε β) (limit : Nat) (σ : Nat → Nat)
    (fuel : Nat) (s : MLPState β) :
    mlpRun n task limit σ (fuel + 1) s =
      match mlpStep n task limit σ s with
      | .next s2 => mlpRun n task limit σ fuel s2
      | .final r s2 => some (r, s2) := rfl

theorem mlpRun_mid_exit (n : Nat) (task : Nat → Except ε β) (limit : Nat)
    (σ : Nat → Nat) (o : List (Option β)) (t : List (Nat × Nat))
    (ev : List SchedEvent) (fuel : Nat) :
    mlpRun n task limit σ (fuel + 1 + 1 + 1) (midState n o t ev) =
      some (.returned o,
        { i := n, done := n, out := o, running := [], ticks := t, events := ev,
          pc := .outer }) := by
  simp [mlpRun_succ, mlpStep, midState]

/-- Running from the canonical intermediate state with `c` tasks left, all of
which fulfil: the scheduler dispatches and settles them strictly one at a
time, in index order, and returns; the schedule `σ` never influences
anything because at most one promise is ever in flight. -/
theorem mlpRun_mid_ok (n : Nat) (task : Nat → Except ε β) (limit : Nat) (σ : Nat → Nat)
    (hlim : 0 < limit) :
    ∀ (c k : Nat), k + c = n → (∀ j, k ≤ j → j < n → (task j).isOk) →
    ∀ (o : List (Option β)) (t : List (Nat × Nat)) (ev : List SchedEvent),
    mlpRun n task limit σ (2 * c + 3) (midState k o t ev) =
      some (.returned (mlpFill task c k o),
        { i := n, done := n, out := mlpFill task c k o, running := [],
          ticks := t ++ (List.range' (k + 1) c).map (fun d => (d, n)),
          events := ev ++ (List.range' k c).flatMap (fun d => [.start d, .finish d]),
          pc := .outer }) := by
  intro c
  induction c with
  | zero =>
    intro k hk hok o t ev
    have hk2 : k = n := by omega
    subst hk2
    simpa [mlpFill] using mlpRun_mid_exit _ task limit σ o t ev 0
  | succ c IH =>
    intro k hk hok o t ev
    have hkn : k < n := by omega
    obtain ⟨v, hv⟩ : ∃ v, task k = .ok v := by
      have hbool := hok k (Nat.le_refl k) hkn
      cases h : task k with
      | ok v => exact ⟨v, rfl⟩
      | error e2 => rw [h] at hbool; simp [Except.isOk, Except.toBool] at hbool
    rw [show 2 * (c + 1) + 3 = (2 * c + 3) + 1 + 1 from by omega]
    rw [mlpRun_succ, mlpStep_mid_dispatch n task limit σ k o t ev hkn hlim]
    dsimp only
    rw [mlpRun_succ, mlpStep_run_settle_ok n task limit σ k v hv o t ev]
    dsimp only
    rw [IH (k + 1) (by omega) (fun j hj1 hj2 => hok j (by omega) hj2)
      (o.set k (some v)) (t ++ [(k + 1, n)]) (ev ++ [SchedEvent.start k, SchedEvent.finish k])]
    rw [show mlpFill task (c + 1) k o =
        mlpFill task c (k + 1) (o.set k (some v)) from by simp [mlpFill, hv, Except.toOption]]
    simp [List.range'_succ, List.append_assoc]

/-- Running from the canonical intermediate state when the `(c+1)`-st
remaining task rejects: the earlier tasks settle normally, the failing task's
`finally` still releases its slot and fires its tick, and then the rejection
propagates out of the scheduler — no later task is ever dispatched. -/
theorem mlpRun_mid_fail (n : Nat) (task : Nat → Except ε β) (limit : Nat) (σ : Nat → Nat)
    (hlim : 0 < limit) (e : ε) :
    ∀ (c k : Nat), k + c < n → (∀ j, k ≤ j → j < k + c → (task j).isOk) →
    task (k + c) = .error e →
    ∀ (o : List (Option β)) (t : List (Nat × Nat)) (ev : List SchedEvent),
    mlpRun n task limit σ (2 * c + 2) (midState k o t ev) =
      some (.rejected e,
        { i := k + c + 1, done := k + c + 1, out := mlpFill task c k o, running := [],
          ticks := t ++ (List.range' (k + 1) (c + 1)).map (fun d => (d, n)),
          events := ev ++ (List.range' k (c + 1)).flatMap
            (fun d => [.start d, .finish d]),
          pc := .awaitRun (k + c) }) := by
  intro c
  induction c with
  | zero =>
    intro k hk hok hfail o t ev
    have hkn : k < n := by omega
    rw [show 2 * 0 + 2 = 0 + 1 + 1 from by omega]
    rw [mlpRun_succ, mlpStep_mid_dispatch n task limit σ k o t ev hkn hlim]
    dsimp only
    rw [mlpRun_succ,
      mlpStep_run_settle_error n task limit σ k e (by simpa using hfail) o t ev]
    simp [mlpFill, List.range'_succ]
  | succ c IH =>
    intro k hk hok hfail o t ev
    have hkn : k < n := by omega
    obtain ⟨v, hv⟩ : ∃ v, task k = .ok v := by
      have hbool := hok k (Nat.le_refl k) (by omega)
      cases h : task k with
      | ok v => exact ⟨v, rfl⟩
      | error e2 => rw [h] at hbool; simp [Except.isOk, Except.toBool] at hbool
    rw [show 2 * (c + 1) + 2 = (2 * c + 2) + 1 + 1 from by omega]
    rw [mlpRun_succ, mlpStep_mid_dispatch n task limit σ k o t ev hkn hlim]
    dsimp only
    rw [mlpRun_succ, mlpStep_run_settle_ok n task limit σ k v hv o t ev]
    dsimp only
    have hshift : k + 1 + c = k + (c + 1) := by omega
    rw [IH (k + 1) (by omega)
      (fun j hj1 hj2 => hok j (by omega) (by omega))
      (by rw [hshift]; exact hfail)
      (o.set k (some v)) (t ++ [(k + 1, n)]) (ev ++ [SchedEvent.start k, SchedEvent.finish k])]
    rw [show mlpFill task (c + 1) k o =
        mlpFill task c (k + 1) (o.set k (some v)) from by
      simp [mlpFill, hv, Except.toOption]]
    simp [List.range'_succ, List.append_assoc, hshift]

/-- Slotwise description of `mlpFill`. -/
theorem mlpFill_getElem? (task : Nat → Except ε β) :
    ∀ (c k : Nat) (o : List (Option β)) (j : Nat),
      (mlpFill task c k o)[j]? =
        if k ≤ j ∧ j < k + c ∧ j < o.length then some ((task j).toOption) else o[j]? := by
  intro c
  induction c with
  | zero =>
    intro k o j
    rw [if_neg (by omega)]
    rfl
  | succ c IH =>
    intro k o j
    rw [mlpFill, IH]
    by_cases hj : j = k
    · subst hj
      rw [if_neg (by omega)]
      by_cases hlen : j < o.length
      · rw [if_pos ⟨Nat.le_refl j, by omega, by simpa using hlen⟩]
        simp [hlen]
      · rw [if_neg (by simp; omega)]
        have hnone : o[j]? = none := List.getElem?_eq_none (by omega)
        rw [List.getElem?_set_self', hnone]
        rfl
    · rw [List.getElem?_set_ne (by omega)]
      simp only [List.length_set]
      by_cases hin : k ≤ j ∧ j < k + (c + 1) ∧ j < o.length
      · rw [if_pos (by omega), if_pos hin]
      · rw [if_neg (by omega), if_neg hin]

/-- Filling an all-`none` array of length `n` with the indexed tasks' values
is exactly the sequential reference result. -/
theorem mlpFill_replicate_eq [Inhabited α] (items : List α) (fn : α → Except ε β) :
    mlpFill (fun idx => fn (items.getD idx default)) items.length 0
        (List.replicate items.length none) = sequentialSpec items fn := by
  apply List.ext_getElem?
  intro j
  rw [mlpFill_getElem?]
  by_cases hj : j < items.length
  · rw [if_pos ⟨Nat.zero_le j, by simpa using hj, by simpa using hj⟩]
    rw [sequentialSpec, List.getElem?_map, List.getElem?_eq_getElem hj]
    simp [List.getD_eq_getElem?_getD, List.getElem?_eq_getElem hj]
  · rw [if_neg (by simp; omega)]
    rw [sequentialSpec]
    rw [List.getElem?_eq_none (by simpa using Nat.le_of_not_lt hj),
      List.getElem?_eq_none (by simpa using Nat.le_of_not_lt hj)]

/-- The complete run of `mapLimitProgress` when every task fulfils: it
returns the sequential reference array and the final state is fully
determined — `n` completions, ticks `(1,n) ... (n,n)`, and a strictly
alternating start/finish event log in index order. -/
theorem mapLimitProgress_run_ok [Inhabited α] (items : List α) (limit : Nat)
    (fn : α → Except ε β) (σ : Nat → Nat) (hlim : 0 < limit)
    (hok : ∀ a ∈ items, (fn a).isOk) :
    mapLimitProgress items limit fn σ =
      some (.returned (sequentialSpec items fn),
        { i := items.length, done := items.length, out := sequentialSpec items fn,
          running := [],
          ticks := (List.range' 1 items.length).map (fun d => (d, items.length)),
          events := (List.range' 0 items.length).flatMap
            (fun d => [SchedEvent.start d, SchedEvent.finish d]),
          pc := .outer }) := by
  by_cases hn : items.length = 0
  · rw [List.length_eq_zero] at hn
    subst hn
    rfl
  · have hpos : 0 < items.length := Nat.pos_of_ne_zero hn
    have hok2 : ∀ j, 0 ≤ j → j < items.length →
        ((fun idx => fn (items.getD idx default)) j).isOk := by
      intro j _ hj
      have hmem : items.getD j default ∈ items := by
        rw [List.getD_eq_getElem?_getD, List.getElem?_eq_getElem hj]
        exact List.getElem_mem hj
      exact hok _ hmem
    have hstep0 : mlpStep items.length (fun idx => fn (items.getD idx default)) limit σ
        (mlpInit items.length) =
        .next (midState 0 (List.replicate items.length none) [] []) := by
      simp [mlpStep, mlpInit, midState, hpos]
    have hrun := mlpRun_mid_ok items.length (fun idx => fn (items.getD idx default))
      limit σ hlim items.length 0 (by omega) hok2
      (List.replicate items.length none) [] []
    have hrun2 : mlpRun items.length (fun idx => fn (items.getD idx default)) limit σ
        ((2 * items.length + 3) + 1) (mlpInit items.length) =
        some (.returned (mlpFill (fun idx => fn (items.getD idx default))
            items.length 0 (List.replicate items.length none)),
          { i := items.length, done := items.length,
            out := mlpFill (fun idx => fn (items.getD idx default)) items.length 0
              (List.replicate items.length none),
            running := [],
            ticks := [] ++ (List.range' 1 items.length).map (fun d => (d, items.length)),
            events := [] ++ (List.range' 0 items.length).flatMap
              (fun d => [.start d, .finish d]),
            pc := .outer }) := by
      rw [mlpRun_succ, hstep0]
      dsimp only
      exact hrun
    have hfinal := mlpRun_mono items.length (fun idx => fn (items.getD idx default))
      limit σ _ _ _ hrun2 (mlpFuel items.length) (by simp only [mlpFuel]; omega)
    rw [mapLimitProgress, hfinal, mlpFill_replicate_eq]
    simp only [List.nil_append]

/-- C1: under every completion schedule (arbitrary arrival order), when all
tasks fulfil, the bounded resolver's output array holds each identity's value
at that identity's original input index — it equals the array produced by
running the same tasks sequentially in input order. -/
theorem C1_output_matches_sequential [Inhabited α] (items : List α) (limit : Nat)
    (fn : α → Except ε β) (σ : Nat → Nat) (hlim : 0 < limit)
    (hok : ∀ a ∈ items, (fn a).isOk) :
    (mapLimitProgress items limit fn σ).map Prod.fst =
      some (.returned (sequentialSpec items fn)) := by
  rw [mapLimitProgress_run_ok items limit fn σ hlim hok, Option.map_some']

/-- C2 (amended): when task `k` rejects (all earlier tasks fulfilling), the
`finally` handler still releases the failing task's slot and fires its
progress tick — but the rejection then propagates out of `await run(...)`:
`mapLimitProgress` rejects, and no identity after `k` is ever dispatched, so
the run does not complete for the remaining queue. -/
theorem C2_rejection_aborts_queue [Inhabited α] (items : List α) (limit : Nat)
    (fn : α → Except ε β) (σ : Nat → Nat) (hlim : 0 < limit) (k : Nat) (e : ε)
    (hk : k < items.length)
    (hok : ∀ j, j < k → (fn (items.getD j default)).isOk)
    (hfail : fn (items.getD k default) = .error e) :
    mapLimitProgress items limit fn σ =
      some (.rejected e,
        { i := k + 1, done := k + 1,
          out := mlpFill (fun idx => fn (items.getD idx default)) k 0
            (List.replicate items.length none),
          running := [],
          ticks := (List.range' 1 (k + 1)).map (fun d => (d, items.length)),
          events := (List.range' 0 (k + 1)).flatMap
            (fun d => [SchedEvent.start d, SchedEvent.finish d]),
          pc := .awaitRun k }) := by
  have hpos : 0 < items.length := by omega
  have hstep0 : mlpStep items.length (fun idx => fn (items.getD idx default)) limit σ
      (mlpInit items.length) =
      .next (midState 0 (List.replicate items.length none) [] []) := by
    simp [mlpStep, mlpInit, midState, hpos]
  have hrun := mlpRun_mid_fail items.length (fun idx => fn (items.getD idx default))
    limit σ hlim e k 0 (by omega) (fun j hj1 hj2 => hok j (by omega))
    (by simpa using hfail) (List.replicate items.length none) [] []
  simp only [Nat.zero_add, List.nil_append] at hrun
  have hrun2 : mlpRun items.length (fun idx => fn (items.getD idx default)) limit σ
      ((2 * k + 2) + 1) (mlpInit items.length) =
      some (.rejected e,
        { i := k + 1, done := k + 1,
          out := mlpFill (fun idx => fn (items.getD idx default)) k 0
            (List.replicate items.length none),
          running := [],
          ticks := (List.range' 1 (k + 1)).map (fun d => (d, items.length)),
          events := (List.range' 0 (k + 1)).flatMap
            (fun d => [SchedEvent.start d, SchedEvent.finish d]),
          pc := .awaitRun k }) := by
    rw [mlpRun_succ, hstep0]
    dsimp only
    exact hrun
  have hfinal := mlpRun_mono items.length (fun idx => fn (items.getD idx default))
    limit σ _ _ _ hrun2 (mlpFuel items.length) (by simp only [mlpFuel]; omega)
  rw [mapLimitProgress, hfinal]

/-- C2 counterexample: three queued identities whose first task rejects — the
run rejects after one completion; identities 1 and 2 are never dispatched
(the event log stops at task 0) and never complete, contradicting "every
other queued identity is still dispatched and the run completes for all of
them". -/
theorem C2_counterexample :
    mapLimitProgress [0, 1, 2] MAX_CONCURRENCY
        (fun x : Nat => if x = 0 then (Except.error "boom" : Except String Nat)
          else .ok x)
        (fun _ => 0) =
      some (.rejected "boom",
        { i := 1, done := 1, out := [none, none, none], running := [],
          ticks := [(1, 3)], events := [.start 0, .finish 0],
          pc := .awaitRun 0 }) := by
  rfl

theorem mlpGood_len (s : MLPState β) (h : mlpGood s) : s.running.length ≤ 1 := by
  rw [mlpGood] at h
  cases hpc : s.pc <;> rw [hpc] at h <;> simp [h]

theorem mlpGood_next (n : Nat) (task : Nat → Except ε β) (limit : Nat) (σ : Nat → Nat)
    (s s2 : MLPState β) (h : mlpGood s)
    (hstep : mlpStep n task limit σ s = .next s2) : mlpGood s2 := by
  cases hpc : s.pc with
  | outer =>
    simp only [mlpGood, hpc] at h
    rw [mlpStep, hpc] at hstep
    by_cases hi : s.i < n
    · rw [if_pos hi] at hstep
      cases hstep
      simp [mlpGood, h]
    · rw [if_neg hi] at hstep
      cases hstep
  | inner =>
    simp only [mlpGood, hpc] at h
    rw [mlpStep, hpc] at hstep
    by_cases hc : s.running.length < limit ∧ s.i < n
    · rw [if_pos hc] at hstep
      cases hstep
      simp [mlpGood, h]
    · rw [if_neg hc] at hstep
      cases hstep
      simp [mlpGood, h]
  | awaitRun idx =>
    simp only [mlpGood, hpc] at h
    rw [mlpStep, hpc, h] at hstep
    simp only [List.length_cons, List.length_nil, Nat.zero_add, Nat.mod_one,
      List.getD_cons_zero] at hstep
    rw [if_pos trivial] at hstep
    cases htask : task idx with
    | ok v =>
      rw [htask] at hstep
      cases hstep
      simp [mlpGood, mlpSettle, h]
    | error e =>
      rw [htask] at hstep
      cases hstep
  | race =>
    simp only [mlpGood, hpc] at h
    rw [mlpStep, hpc, h] at hstep
    simp only [List.isEmpty_nil, if_true] at hstep
    cases hstep
    simp [mlpGood, h]
  | awaitRace =>
    simp only [mlpGood, hpc] at h
    rw [mlpStep, hpc, h] at hstep
    cases hstep
    simp [mlpGood, hpc, h]

theorem mlpGood_final (n : Nat) (task : Nat → Except ε β) (limit : Nat) (σ : Nat → Nat)
    (s s2 : MLPState β) (r : MLPResult β ε) (h : mlpGood s)
    (hstep : mlpStep n task limit σ s = .final r s2) : s2.running = [] := by
  cases hpc : s.pc with
  | outer =>
    simp only [mlpGood, hpc] at h
    rw [mlpStep, hpc] at hstep
    by_cases hi : s.i < n
    · rw [if_pos hi] at hstep
      cases hstep
    · rw [if_neg hi] at hstep
      cases hstep
      exact h
  | inner =>
    simp only [mlpGood, hpc] at h
    rw [mlpStep, hpc] at hstep
    by_cases hc : s.running.length < limit ∧ s.i < n
    · rw [if_pos hc] at hstep
      cases hstep
    · rw [if_neg hc] at hstep
      cases hstep
  | awaitRun idx =>
    simp only [mlpGood, hpc] at h
    rw [mlpStep, hpc, h] at hstep
    simp only [List.length_cons, List.length_nil, Nat.zero_add, Nat.mod_one,
      List.getD_cons_zero] at hstep
    rw [if_pos trivial] at hstep
    cases htask : task idx with
    | ok v =>
      rw [htask] at hstep
      cases hstep
    | error e =>
      rw [htask] at hstep
      cases hstep
      simp [mlpSettle, h]
  | race =>
    simp only [mlpGood, hpc] at h
    rw [mlpStep, hpc, h] at hstep
    simp only [List.isEmpty_nil, if_true] at hstep
    cases hstep
  | awaitRace =>
    simp only [mlpGood, hpc] at h
    rw [mlpStep, hpc, h] at hstep
    cases hstep

/-- Along any trace started in a good state, at most one task is ever in
flight. -/
theorem mlpTrace_running_le_one (n : Nat) (task : Nat → Except ε β) (limit : Nat)
    (σ : Nat → Nat) :
    ∀ (fuel : Nat) (s : MLPState β), mlpGood s →
      ∀ s2 ∈ mlpTrace n task limit σ fuel s, s2.running.length ≤ 1 := by
  intro fuel
  induction fuel with
  | zero =>
    intro s hs s2 hmem
    rw [mlpTrace] at hmem
    rw [List.mem_singleton] at hmem
    subst hmem
    exact mlpGood_len _ hs
  | succ f IH =>
    intro s hs s2 hmem
    rw [mlpTrace] at hmem
    rcases List.mem_cons.mp hmem with heq | hmem2
    · subst heq
      exact mlpGood_len _ hs
    · cases hstep : mlpStep n task limit σ s with
      | next s3 =>
        rw [hstep] at hmem2
        exact IH s3 (mlpGood_next n task limit σ s s3 hs hstep) s2 hmem2
      | final r s3 =>
        rw [hstep] at hmem2
        rw [List.mem_singleton] at hmem2
        subst hmem2
        rw [mlpGood_final n task limit σ s s2 r hs hstep]
        simp

/-- C3: with the code's ceiling `MAX_CONCURRENCY = 6`, at every instant of a
run over `N` identities at most `MAX_CONCURRENCY` resolution tasks are in
flight (in fact at most one — `await run(i++)` serialises the loop); the
completion count reaches exactly `N` (ticks `(1,N) … (N,N)`); and as soon as
any task completes the next queued task starts: the event log alternates
strictly, each `finish d` immediately followed by `start (d+1)`. -/
theorem C3_ceiling_and_completion [Inhabited α] (items : List α)
    (fn : α → Except ε β) (σ : Nat → Nat)
    (hok : ∀ a ∈ items, (fn a).isOk) :
    (∀ s ∈ mapLimitTrace items MAX_CONCURRENCY fn σ,
      s.running.length ≤ MAX_CONCURRENCY) ∧
    (∃ sf, mapLimitProgress items MAX_CONCURRENCY fn σ =
        some (.returned (sequentialSpec items fn), sf) ∧
      sf.done = items.length ∧
      sf.ticks = (List.range' 1 items.length).map (fun d => (d, items.length)) ∧
      sf.events = (List.range' 0 items.length).flatMap
        (fun d => [SchedEvent.start d, SchedEvent.finish d]) ∧
      (∀ d, d + 1 < items.length → ∃ l1 l2,
        sf.events = l1 ++ [SchedEvent.finish d, SchedEvent.start (d + 1)] ++ l2)) := by
  constructor
  · intro s hmem
    rw [mapLimitTrace] at hmem
    have h1 := mlpTrace_running_le_one items.length
      (fun idx => fn (items.getD idx default)) MAX_CONCURRENCY σ
      (mlpFuel items.length) (mlpInit items.length)
      (by simp [mlpGood, mlpInit]) s hmem
    exact Nat.le_trans h1 (by decide)
  · refine ⟨_, mapLimitProgress_run_ok items MAX_CONCURRENCY fn σ (by decide) hok,
      rfl, rfl, rfl, ?_⟩
    intro d hd
    have hsplit : ∀ m, items.length = d + 2 + m →
        List.range' 0 items.length =
          List.range' 0 d ++ d :: (d + 1) :: List.range' (d + 2) m := by
      intro m hm
      rw [hm]
      rw [show d + 2 + m = (m + 2) + d from by omega]
      rw [← List.range'_append_1 0 d (m + 2)]
      congr 1
      rw [Nat.zero_add]
      rw [show m + 2 = (m + 1) + 1 from by omega, List.range'_succ, List.range'_succ]
    dsimp only
    rw [hsplit (items.length - d - 2) (by omega)]
    refine ⟨(List.range' 0 d).flatMap (fun j => [SchedEvent.start j, SchedEvent.finish j]) ++
        [SchedEvent.start d],
      [SchedEvent.finish (d + 1)] ++ (List.range' (d + 2) (items.length - d - 2)).flatMap
        (fun j => [SchedEvent.start j, SchedEvent.finish j]), ?_⟩
    simp [List.flatMap_append, List.flatMap_cons, List.append_assoc]

/-- Witness for C1 at a concrete three-task run. -/
theorem C1_witness :
    (mapLimitProgress [10, 20, 30] MAX_CONCURRENCY
        (fun x : Nat => (Except.ok (x * 2) : Except String Nat)) (fun _ => 0)).map
        Prod.fst =
      some (.returned [some 20, some 40, some 60]) :=
  (C1_output_matches_sequential [10, 20, 30] MAX_CONCURRENCY
      (fun x : Nat => (Except.ok (x * 2) : Except String Nat)) (fun _ => 0)
      (by decide) (fun _ _ => rfl)).trans (by decide)

/-- Witness for the amended C2 at a concrete run whose second task rejects. -/
theorem C2_witness :
    mapLimitProgress [0, 1, 2] MAX_CONCURRENCY
        (fun x : Nat => if x = 1 then (Except.error "e" : Except String Nat) else .ok x)
        (fun _ => 0) =
      some (.rejected "e",
        { i := 2, done := 2, out := [some 0, none, none], running := [],
          ticks := [(1, 3), (2, 3)],
          events := [.start 0, .finish 0, .start 1, .finish 1],
          pc := .awaitRun 1 }) :=
  (C2_rejection_aborts_queue [0, 1, 2] MAX_CONCURRENCY
      (fun x : Nat => if x = 1 then (Except.error "e" : Except String Nat) else .ok x)
      (fun _ => 0) (by decide) 1 "e" (by decide)
      (by
        intro j hj
        have hj0 : j = 0 := by omega
        subst hj0
        rfl)
      rfl).trans (by decide)

/-- Witness for C3 at a concrete two-task run. -/
theorem C3_witness :
    (∀ s ∈ mapLimitTrace [5, 6] MAX_CONCURRENCY
        (fun x : Nat => (Except.ok (x + 1) : Except String Nat)) (fun _ => 0),
      s.running.length ≤ MAX_CONCURRENCY) ∧
    (∃ sf, mapLimitProgress [5, 6] MAX_CONCURRENCY
        (fun x : Nat => (Except.ok (x + 1) : Except String Nat)) (fun _ => 0) =
        some (.returned (sequentialSpec [5, 6]
          (fun x : Nat => (Except.ok (x + 1) : Except String Nat))), sf) ∧
      sf.done = ([5, 6] : List Nat).length ∧
      sf.ticks = (List.range' 1 ([5, 6] : List Nat).length).map
        (fun d => (d, ([5, 6] : List Nat).length)) ∧
      sf.events = (List.range' 0 ([5, 6] : List Nat).length).flatMap
        (fun d => [SchedEvent.start d, SchedEvent.finish d]) ∧
      (∀ d, d + 1 < ([5, 6] : List Nat).length → ∃ l1 l2,
        sf.events = l1 ++ [SchedEvent.finish d, SchedEvent.start (d + 1)] ++ l2)) :=
  C3_ceiling_and_completion [5, 6]
    (fun x : Nat => (Except.ok (x + 1) : Except String Nat)) (fun _ => 0) (fun _ _ => rfl)

/-- Witness for C4 at the claim's concrete candidate list. -/
theorem C4_witness :
    getBestTargetVersion (some [⟨"alpha", 1, "a", []⟩, ⟨"release", 2, "b", []⟩,
        ⟨"release", 3, "c", []⟩]) = some ⟨"release", 3, "c", []⟩ :=
  (C4_version_selection_policy
      [⟨"alpha", 1, "a", []⟩, ⟨"release", 2, "b", []⟩, ⟨"release", 3, "c", []⟩]
      (by decide)).2 1 2 3 "a" "b" "c" [] [] [] (by decide)

/-- Witness for C5: a non-allow-listed identity with zero primary candidates
yields an unavailable row and no fallback invocation. -/
theorem C5_witness :
    (resolveRow "abc" "mod" none none "1.20.1" "1.21.4" "fabric" (some [])
        none).1.target_available = false ∧
    (resolveRow "abc" "mod" none none "1.20.1" "1.21.4" "fabric" (some []) none).2 = false :=
  (C5_fallback_only_for_allow_list "abc" "mod" none none "1.20.1" "1.21.4" "fabric"
    (some []) none).2 rfl rfl

/-- Witness for C6: the fallback row of the concrete scenario is excluded
from packaging and listed in the excluded report. -/
theorem C6_witness :
    includableRow exampleFallbackRow = false ∧
    exampleFallbackRow ∈ skippedRows
      [exampleModrinthRow "p1", exampleModrinthRow "p2", exampleFallbackRow] :=
  ⟨C6_packaging_invariant.2.1 exampleFallbackRow (by decide),
    C6_packaging_invariant.2.2.1
      [exampleModrinthRow "p1", exampleModrinthRow "p2", exampleFallbackRow]
      exampleFallbackRow (by decide) (by decide) (by decide)⟩

/-- Witness for C8 at the concrete feed: the returned release is the first
eligible one, its draft and prerelease predecessors skipped. -/
theorem C8_witness :
    ∃ r, r ∈ exampleFeed ∧ r.draft = false ∧ r.prerelease = false ∧
      ∃ a, r.assets.find? (assetMatches "1.21.4") = some a ∧
        ({ version_number := "1.21.4-1.4.147", date_published := some 5,
           download_url := "u2", source := "github-fallback" } : GHResult) = mkGHResult r a :=
  (C8_fallback_source_arbiter exampleFeed "1.21.4").2.1
    { version_number := "1.21.4-1.4.147", date_published := some 5,
      download_url := "u2", source := "github-fallback" } (by decide)

/-- Witness for C9 at a concrete build whose loader lookup fails: the
previous pin is retained and a note is emitted. -/
theorem C9_witness :
    lookupDep (buildIndex [] (fun _ => none)
        [("minecraft", "1.20.1"), ("fabric-loader", "0.15.0")] (some "Pack")
        "1.21.4" "fabric" none).dependencies "fabric-loader" =
      lookupDep [("minecraft", "1.20.1"), ("fabric-loader", "0.15.0")] "fabric-loader" ∧
    ((buildIndex [] (fun _ => none)
        [("minecraft", "1.20.1"), ("fabric-loader", "0.15.0")] (some "Pack")
        "1.21.4" "fabric" none).loaderNote =
        "Fabric Loader not set (meta lookup failed)." ∨
      ∃ old, (buildIndex [] (fun _ => none)
          [("minecraft", "1.20.1"), ("fabric-loader", "0.15.0")] (some "Pack")
          "1.21.4" "fabric" none).loaderNote =
        "Kept existing Fabric Loader " ++ old ++ " (meta lookup failed).") :=
  (C9_loader_pin_best_effort [] (fun _ => none)
    [("minecraft", "1.20.1"), ("fabric-loader", "0.15.0")] (some "Pack")
    "1.21.4" none).2.1 rfl

/-- Witness for C10: the flagged-primary file entry supplies the cached
metadata. -/
theorem C10_witness :
    pickPrimaryFile (some ⟨"release", 1, "v",
        [⟨false, some "s1", some "s2", some 3, some "u", some "f"⟩,
         ⟨true, some "t1", some "t2", some 4, some "w", some "g"⟩]⟩) =
      some ⟨true, some "t1", some "t2", some 4, some "w", some "g"⟩ :=
  C10_primary_file_metadata.2.2.1
    ⟨"release", 1, "v",
      [⟨false, some "s1", some "s2", some 3, some "u", some "f"⟩,
       ⟨true, some "t1", some "t2", some 4, some "w", some "g"⟩]⟩
    ⟨true, some "t1", some "t2", some 4, some "w", some "g"⟩ (by decide)
